import Mathlib

/-!
Verification development for the TDFC dictionary cache service (src/app.py).

The embedding models the core engine of the service:

* `norm`        — text canonicalization (`norm` in app.py, lines 43-51);
* `get_file_sig`— the staleness signature (lines 81-85);
* `find_header` — header-row location (`find_header`, lines 88-111);
* `rebuild_cache` — the full index rebuild (lines 114-160), returning the
  result together with the list of all committed (observer-visible) sqlite
  states, in order: the source first deletes all `entries` rows and the
  `meta` row, inserts the fresh signature and commits (lines 122-125), then
  inserts entries in batches of 3000, committing after every full batch and
  once more for a non-empty final batch (lines 153-160);
* `ensure_cache_uptodate` — the lazy staleness check (lines 163-176);
* `lookup`      — the query surface (lines 225-262).

Modelling conventions.  Python strings are `List Char`.  The Unicode data
consulted by the source (`str.lower`, `unicodedata.normalize("NFD", ...)`,
combining-mark categories, `str.strip` whitespace) is modelled faithfully on
the repertoire exercised by this application: ASCII, the accented letters
appearing in the header aliases, the combining accents, and the no-break
space; every other code point is inert (no case mapping, no decomposition,
not a combining mark), which matches Unicode on the characters involved.
Spreadsheet cells are `Option Str`: `none` is an empty cell, `some s` is the
cell text after the `str(...)` coercion the source applies.  Database rows
are returned by sqlite in rowid (insertion) order for the queries the source
issues over its `idx_entries` index; the model therefore keeps `entries` as
a list in insertion order.  Errors are an inductive type whose constructors
stand for the four distinct `RuntimeError` messages of the source.
-/

deriving instance DecidableEq for Except

abbrev Str := List Char

/-- Characters treated as whitespace by `str.strip` (the ones relevant to
this application, including the no-break space U+00A0). -/
def pyIsSpace (c : Char) : Bool := c ∈ [' ', '\t', '\n', '\r', '\x0b', '\x0c', '\u00A0']

/-- Model of `str.strip()`: drop leading and trailing whitespace. -/
def pyStrip (s : Str) : Str := ((s.dropWhile pyIsSpace).reverse.dropWhile pyIsSpace).reverse

/-- Model of `str.lower()` on one character: ASCII letters shift by 32; the
accented capitals used by this application map to their lowercase forms;
everything else is unchanged. -/
def pyLower (c : Char) : Char :=
  if c = 'É' then 'é' else if c = 'À' then 'à' else if c = 'È' then 'è'
  else if 65 ≤ c.toNat ∧ c.toNat ≤ 90 then Char.ofNat (c.toNat + 32) else c

/-- Canonical (NFD) decomposition of one character, on the repertoire of the
application; precomposed accented letters split into base letter plus
combining accent, all other code points are their own decomposition. -/
def nfdChar (c : Char) : List Char :=
  if c = 'é' then ['e', '\u0301'] else if c = 'è' then ['e', '\u0300']
  else if c = 'à' then ['a', '\u0300'] else if c = 'É' then ['E', '\u0301']
  else if c = 'È' then ['E', '\u0300'] else if c = 'À' then ['A', '\u0300'] else [c]

/-- Combining-mark (category Mn) test, on the repertoire of the application. -/
def isMn (c : Char) : Bool := c ∈ ['\u0301', '\u0300']

/-- Fixpoint of `while "  " in s: s = s.replace("  ", " ")`: every run of two
or more spaces collapses to a single space. -/
def collapseSpaces : Str → Str
  | [] => []
  | c :: rest =>
    if c = ' ' ∧ rest.head? = some ' ' then collapseSpaces rest
    else c :: collapseSpaces rest

/-- Test for an adjacent pair of spaces, the condition of the collapse loop. -/
def hasDoubleSpace : Str → Bool
  | [] => false
  | c :: rest => (decide (c = ' ' ∧ rest.head? = some ' ')) || hasDoubleSpace rest

/-- The `norm` function of app.py (lines 43-51): strip, lower-case, NFD
decomposition with combining marks removed, no-break spaces replaced by
ordinary spaces, and runs of spaces collapsed. -/
def norm (s : Str) : Str :=
  let t := (pyStrip s).map pyLower
  let u := (t.flatMap nfdChar).filter (fun d => !(isMn d))
  let v := u.map (fun d => if d = '\u00A0' then ' ' else d)
  collapseSpaces v

/-- One spreadsheet cell: `none` models an empty (`None`) cell. -/
abbrev Cell := Option Str

/-- Value of `norm(cell.value)`: `norm(None)` is the empty string. -/
def normV (c : Cell) : Str := norm (c.getD [])

/-- A sheet is its grid of rows of cells (row 1 is the list head). -/
abbrev Sheet := List (List Cell)

/-- One row of the `entries` table: normalized keys plus the raw (trimmed)
label, exactly the tuple staged at app.py line 152. -/
structure Entry where
  imprime : Str
  codeedi : Str
  libelle : Str
deriving DecidableEq

/-- The persisted sqlite state: the `entries` table in rowid order and the
`meta` table, which holds at most the `file_sig` value. -/
structure DB where
  entries : List Entry
  meta : Option Str
deriving DecidableEq

/-- The four distinct `RuntimeError` values raised by the core: the two
missing-file messages (line 116 in `rebuild_cache`, line 165 in
`ensure_cache_uptodate`), the missing-sheet message (line 129) and the
missing-header message (line 111).  The first two are the spec
`ConfigurationError`, the last two its `SchemaError`. -/
inductive Err where
  | noFileUpload
  | noFileQuery
  | sheetNotFound (sheet : Str)
  | headerNotFound
deriving DecidableEq

/-- The uploaded source file as the filesystem presents it: resolved path,
whole-second mtime, byte size, and the workbook (named sheets). -/
structure FileInfo where
  path : Str
  mtime : Nat
  size : Nat
  wb : List (Str × Sheet)

/-- External environment of one request: `DATA_FILE` either absent or
present with its stat data and content. -/
structure Env where
  dataFile : Option FileInfo

/-- Decimal rendering of a natural number, for the signature string. -/
def natStr (n : Nat) : Str := Nat.toDigits 10 n

/-- The `get_file_sig` function (lines 81-85): empty string when the file is
absent, otherwise `path|mtime|size|sheet`. -/
def get_file_sig (env : Env) (sheet : Str) : Str :=
  match env.dataFile with
  | none => []
  | some f =>
    f.path ++ ['|'] ++ natStr f.mtime ++ ['|'] ++ natStr f.size ++ ['|'] ++ sheet

/-- The dictionary-building loop of `find_header` (lines 98-102): walk the
cells of a row with 1-based column index, keeping the first column for each
non-empty normalized cell text. -/
def buildHeaderMapAux (idx : Nat) (hm : List (Str × Nat)) : List Cell → List (Str × Nat)
  | [] => hm
  | c :: rest =>
    let t := normV c
    if t ≠ [] ∧ hm.lookup t = none then buildHeaderMapAux (idx + 1) (hm ++ [(t, idx)]) rest
    else buildHeaderMapAux (idx + 1) hm rest

/-- The `hm` dictionary for one row, as an association list. -/
def buildHeaderMap (row : List Cell) : List (Str × Nat) := buildHeaderMapAux 1 [] row

/-- The `pick` helper of `find_header` (lines 89-94): try the aliases in
order, normalizing each, and return the first mapped column. -/
def pick (hm : List (Str × Nat)) (keys : List Str) : Option Nat :=
  keys.findSome? (fun k => hm.lookup (norm k))

/-- Alias list for the logical field A (line 104). -/
def aliasesImprime : List Str := ["imprimé".toList, "imprime".toList]

/-- Alias list for the logical field B (line 105). -/
def aliasesCodeEdi : List Str := ["code edi".toList, "code_edi".toList, "codeedi".toList]

/-- Alias list for the logical field C (line 106). -/
def aliasesLibelle : List Str := ["libellé".toList, "libelle".toList]

/-- Columns resolved from one candidate header row (lines 104-109). -/
def headerCols (row : List Cell) : Option (Nat × Nat × Nat) :=
  let hm := buildHeaderMap row
  match pick hm aliasesImprime, pick hm aliasesCodeEdi, pick hm aliasesLibelle with
  | some ci, some cc, some cl => some (ci, cc, cl)
  | _, _, _ => none

/-- The `find_header` function (lines 88-111): scan rows 1 to
`min maxScan rowCount` and return the first row resolving all three fields,
else the missing-header error. -/
def find_header (rows : Sheet) (maxScan : Nat) : Except Err (Nat × Nat × Nat × Nat) :=
  match (List.range' 1 (min maxScan rows.length)).findSome?
      (fun r => (headerCols (rows.getD (r - 1) [])).map (fun t => (r, t.1, t.2.1, t.2.2))) with
  | some q => .ok q
  | none => .error .headerNotFound

/-- Specification-side reading of C4, column search: lowest column index at
or after `j` whose normalized cell text equals `t` (first occurrence wins on
duplicate cell text). -/
def colOfTextFrom (j : Nat) (t : Str) : List Cell → Option Nat
  | [] => none
  | c :: rest => if normV c = t then some j else colOfTextFrom (j + 1) t rest

/-- Specification-side reading of C4, field resolution: probe the ordered
alias list and take the first alias present in the row. -/
def resolveField (row : List Cell) (aliases : List Str) : Option Nat :=
  aliases.findSome? (fun a => colOfTextFrom 1 (norm a) row)

/-- Specification-side reading of C4, row qualification: the row qualifies
when all three alias lists resolve. -/
def resolveRow (row : List Cell) : Option (Nat × Nat × Nat) :=
  match resolveField row aliasesImprime, resolveField row aliasesCodeEdi,
      resolveField row aliasesLibelle with
  | some a, some b, some c => some (a, b, c)
  | _, _, _ => none

/-- Specification-side reading of C4, row scan: starting at row number `r`
with `fuel` rows of scan window left, return the lowest qualifying row. -/
def locateHeaderRows (r : Nat) : Nat → Sheet → Option (Nat × Nat × Nat × Nat)
  | _, [] => none
  | 0, _ :: _ => none
  | fuel + 1, row :: rest =>
    match resolveRow row with
    | some (a, b, c) => some (r, a, b, c)
    | none => locateHeaderRows (r + 1) fuel rest

/-- Specification-side reading of C4: scan the window of rows
1 .. min maxScan rowCount for the lowest qualifying header row. -/
def locateHeaderSpec (rows : Sheet) (maxScan : Nat) : Option (Nat × Nat × Nat × Nat) :=
  locateHeaderRows 1 (min maxScan rows.length) rows

/-- The body of the row loop of `rebuild_cache` (lines 137-152): skip the
row when a key column is outside the populated range, when a normalized key
is empty, or when the trimmed label is empty; otherwise stage the entry. -/
def extractRow (ci cc cl : Nat) (row : List Cell) : Option Entry :=
  if ci - 1 ≥ row.length ∨ cc - 1 ≥ row.length then none
  else
    let imp := normV (row.getD (ci - 1) none)
    let edi := normV (row.getD (cc - 1) none)
    if imp = [] ∨ edi = [] then none
    else
      let v := row.getD (cl - 1) none
      let lib := if cl - 1 < row.length ∧ v.isSome then pyStrip (v.getD []) else []
      if lib = [] then none else some ⟨imp, edi, lib⟩

/-- All entries staged by the row loop, in source-row order: the rows
strictly after the header row, filtered by `extractRow`. -/
def extract_entries (ws : Sheet) (headerRow ci cc cl : Nat) : List Entry :=
  (ws.drop headerRow).filterMap (extractRow ci cc cl)

/-- The batched insert loop (lines 134-160): entries accumulate in `batch`;
when the batch reaches `batchSize` the cumulative `entries` table is
committed and the batch cleared; a non-empty final batch is committed at the
end.  The returned list holds the committed cumulative tables, in order. -/
def insertLoop (batchSize : Nat) (committed batch : List Entry) : List Entry → List (List Entry)
  | [] => if batch = [] then [] else [committed ++ batch]
  | e :: rest =>
    let batch2 := batch ++ [e]
    if batchSize ≤ batch2.length then
      (committed ++ batch2) :: insertLoop batchSize (committed ++ batch2) [] rest
    else insertLoop batchSize committed batch2 rest

/-- The `rebuild_cache` function (lines 114-160).  The first component is
the outcome; the second lists every committed database state an observer
can see, in order: first the wipe-plus-new-signature commit of lines
122-125, then one state per batch commit.  A missing file raises before any
database write; a missing sheet or missing header raises after the wipe
commit, which therefore stands. -/
def rebuild_cache (env : Env) (sheet : Str) : Except Err Unit × List DB :=
  match env.dataFile with
  | none => (.error .noFileUpload, [])
  | some f =>
    let sig := get_file_sig env sheet
    let wiped : DB := ⟨[], some sig⟩
    match f.wb.lookup sheet with
    | none => (.error (.sheetNotFound sheet), [wiped])
    | some ws =>
      match find_header ws 40 with
      | .error e => (.error e, [wiped])
      | .ok (hr, ci, cc, cl) =>
        let es := extract_entries ws hr ci cc cl
        (.ok (), wiped :: (insertLoop 3000 [] [] es).map (fun p => ⟨p, some sig⟩))

/-- The persisted state after a sequence of commits: the last committed
state, or the prior state when nothing was committed. -/
def finalDB (db : DB) (sts : List DB) : DB := sts.getLastD db

/-- The `ensure_cache_uptodate` function (lines 163-176): fail when no file
is present; otherwise compare the stored signature (empty when never built)
with the current one and rebuild exactly when they differ.  The boolean
records whether `rebuild_cache` was invoked. -/
def ensure_cache_uptodate (env : Env) (sheet : Str) (db : DB) :
    Except Err Unit × List DB × Bool :=
  match env.dataFile with
  | none => (.error .noFileQuery, [], false)
  | some _ =>
    let cached := db.meta.getD []
    let current := get_file_sig env sheet
    if cached ≠ current then
      let r := rebuild_cache env sheet
      (r.1, r.2, true)
    else (.ok (), [], false)

/-- Result shape of the `/lookup` route: the single-mode answer carries
`found` and one label, the all-mode answer carries `found` and the
deduplicated label list. -/
inductive LookupResult where
  | single (found : Bool) (libelle : Str)
  | multi (found : Bool) (libelles : List Str)
deriving DecidableEq

/-- Exact compound-key match used by both query modes (lines 245, 251). -/
def entryMatches (imp edi : Str) (e : Entry) : Bool :=
  e.imprime == imp && e.codeedi == edi

/-- The dedup loop of the all-mode query (lines 254-260): keep a label when
its normalized form was not seen yet. -/
def dedupGo (seen : List Str) : List Str → List Str
  | [] => []
  | x :: xs =>
    let k := norm x
    if k ∈ seen then dedupGo seen xs else x :: dedupGo (k :: seen) xs

/-- The query part of the `/lookup` route (lines 237-262), over a given
database state: both inputs are normalized, then either the first matching
row in storage order is returned (single mode) or all matching labels
deduplicated by normalized label (all mode). -/
def lookup (db : DB) (imprime codeedi : Str) (all : Bool) : LookupResult :=
  let imp := norm imprime
  let edi := norm codeedi
  if !all then
    match (db.entries.filter (entryMatches imp edi)).head? with
    | some e => .single true e.libelle
    | none => .single false []
  else
    let rows := (db.entries.filter (entryMatches imp edi)).map Entry.libelle
    let out := dedupGo [] rows
    .multi (decide (0 < out.length)) out

/-- Concrete sheet used by witnesses and counterexamples: a title row, the
header at row 2, and one data row. -/
def sheetA : Sheet :=
  [ [some ("rien".toList)],
    [some ("Notes".toList), some ("Imprimé".toList), some ("Code EDI".toList),
      some ("Libellé".toList)],
    [some ("x".toList), some ("1234".toList), some ("001A".toList),
      some ("Some Label".toList)] ]

/-- Concrete environment with a valid source file holding `sheetA` as sheet
2026. -/
def envA : Env :=
  ⟨some ⟨"current.xlsx".toList, 100, 2000, [("2026".toList, sheetA)]⟩⟩

/-- Concrete environment whose file exists but lacks sheet 2026. -/
def envNoSheet : Env :=
  ⟨some ⟨"current.xlsx".toList, 100, 2000, [("2025".toList, sheetA)]⟩⟩

/-- Concrete environment with no uploaded file. -/
def envNone : Env := ⟨none⟩

/-- Concrete prior database state from an older generation. -/
def dbOld : DB :=
  ⟨[⟨"9".toList, "9".toList, "Old".toList⟩], some ("oldsig".toList)⟩

/-- Signature of `envA` for sheet 2026. -/
def sigA : Str := get_file_sig envA ("2026".toList)

/-- The entry extracted from the data row of `sheetA`. -/
def entryA : Entry := ⟨"1234".toList, "001a".toList, "Some Label".toList⟩

/-- Database with one non-matching entry followed by two entries whose keys
coincide and whose labels differ only by case and spacing; used by the
lookup witnesses. -/
def dbDup : DB :=
  ⟨[⟨"7777".toList, "001a".toList, "Other".toList⟩,
    ⟨"1234".toList, "001a".toList, "Label One".toList⟩,
    ⟨"1234".toList, "001a".toList, "label  one".toList⟩], some ("sig".toList)⟩

/-- Database whose stored key carries a leading space, as `rebuild_cache`
itself produces from a cell whose text starts with a combining mark followed
by a space; used by the C10 counterexample. -/
def dbEdge : DB := ⟨[⟨[' ', 'x'], ['k'], ['L']⟩], some ("sig".toList)⟩

/-! Helper lemmas about the character pipeline of `norm`. -/

theorem ofNat_toNat_small (n : Nat) (h1 : 97 ≤ n) (h2 : n ≤ 122) :
    (Char.ofNat n).toNat = n := by
  interval_cases n <;> decide

theorem char_ne_of_toNat_ne {a b : Char} (h : a.toNat ≠ b.toNat) : a ≠ b :=
  fun hab => h (hab ▸ rfl)

theorem pyLower_stable_out (c d : Char) (hd : d ∈ nfdChar (pyLower c))
    (hmn : isMn d = false) (hnb : d ≠ '\u00A0') : pyLower d = d ∧ nfdChar d = [d] := by
  by_cases h1 : c = 'É'
  · subst h1
    have e1 : nfdChar (pyLower 'É') = ['e', '\u0301'] := by decide
    rw [e1] at hd
    simp only [List.mem_cons, List.not_mem_nil, or_false] at hd
    rcases hd with h | h
    · subst h; exact ⟨by decide, by decide⟩
    · subst h; exact absurd hmn (by decide)
  by_cases h2 : c = 'À'
  · subst h2
    have e1 : nfdChar (pyLower 'À') = ['a', '\u0300'] := by decide
    rw [e1] at hd
    simp only [List.mem_cons, List.not_mem_nil, or_false] at hd
    rcases hd with h | h
    · subst h; exact ⟨by decide, by decide⟩
    · subst h; exact absurd hmn (by decide)
  by_cases h3 : c = 'È'
  · subst h3
    have e1 : nfdChar (pyLower 'È') = ['e', '\u0300'] := by decide
    rw [e1] at hd
    simp only [List.mem_cons, List.not_mem_nil, or_false] at hd
    rcases hd with h | h
    · subst h; exact ⟨by decide, by decide⟩
    · subst h; exact absurd hmn (by decide)
  by_cases h4 : 65 ≤ c.toNat ∧ c.toNat ≤ 90
  · have hpl : pyLower c = Char.ofNat (c.toNat + 32) := by
      simp only [pyLower, if_neg h1, if_neg h2, if_neg h3, if_pos h4]
    have hmt : (Char.ofNat (c.toNat + 32)).toNat = c.toNat + 32 :=
      ofNat_toNat_small _ (by omega) (by omega)
    have t1 : ('é').toNat = 233 := by decide
    have t2 : ('è').toNat = 232 := by decide
    have t3 : ('à').toNat = 224 := by decide
    have t4 : ('É').toNat = 201 := by decide
    have t5 : ('È').toNat = 200 := by decide
    have t6 : ('À').toNat = 192 := by decide
    have n1 : Char.ofNat (c.toNat + 32) ≠ 'é' := char_ne_of_toNat_ne (by omega)
    have n2 : Char.ofNat (c.toNat + 32) ≠ 'è' := char_ne_of_toNat_ne (by omega)
    have n3 : Char.ofNat (c.toNat + 32) ≠ 'à' := char_ne_of_toNat_ne (by omega)
    have n4 : Char.ofNat (c.toNat + 32) ≠ 'É' := char_ne_of_toNat_ne (by omega)
    have n5 : Char.ofNat (c.toNat + 32) ≠ 'È' := char_ne_of_toNat_ne (by omega)
    have n6 : Char.ofNat (c.toNat + 32) ≠ 'À' := char_ne_of_toNat_ne (by omega)
    have hnfd : nfdChar (Char.ofNat (c.toNat + 32)) = [Char.ofNat (c.toNat + 32)] := by
      simp only [nfdChar, if_neg n1, if_neg n2, if_neg n3, if_neg n4, if_neg n5, if_neg n6]
    rw [hpl, hnfd] at hd
    simp only [List.mem_singleton] at hd
    subst hd
    refine ⟨?_, hnfd⟩
    have hr : ¬(65 ≤ (Char.ofNat (c.toNat + 32)).toNat ∧ (Char.ofNat (c.toNat + 32)).toNat ≤ 90) := by
      rw [hmt]; omega
    simp only [pyLower, if_neg n4, if_neg n6, if_neg n5, if_neg hr]
  · have hpl : pyLower c = c := by
      simp only [pyLower, if_neg h1, if_neg h2, if_neg h3, if_neg h4]
    rw [hpl] at hd
    by_cases k1 : c = 'é'
    · subst k1
      have e1 : nfdChar 'é' = ['e', '\u0301'] := by decide
      rw [e1] at hd
      simp only [List.mem_cons, List.not_mem_nil, or_false] at hd
      rcases hd with h | h
      · subst h; exact ⟨by decide, by decide⟩
      · subst h; exact absurd hmn (by decide)
    by_cases k2 : c = 'è'
    · subst k2
      have e1 : nfdChar 'è' = ['e', '\u0300'] := by decide
      rw [e1] at hd
      simp only [List.mem_cons, List.not_mem_nil, or_false] at hd
      rcases hd with h | h
      · subst h; exact ⟨by decide, by decide⟩
      · subst h; exact absurd hmn (by decide)
    by_cases k3 : c = 'à'
    · subst k3
      have e1 : nfdChar 'à' = ['a', '\u0300'] := by decide
      rw [e1] at hd
      simp only [List.mem_cons, List.not_mem_nil, or_false] at hd
      rcases hd with h | h
      · subst h; exact ⟨by decide, by decide⟩
      · subst h; exact absurd hmn (by decide)
    have hnfd : nfdChar c = [c] := by
      simp only [nfdChar, if_neg k1, if_neg k2, if_neg k3, if_neg h1, if_neg h3, if_neg h2]
    rw [hnfd] at hd
    simp only [List.mem_singleton] at hd
    subst hd
    exact ⟨hpl, hnfd⟩

theorem collapse_subset (l : Str) (d : Char) (hd : d ∈ collapseSpaces l) : d ∈ l := by
  induction l with
  | nil => simp [collapseSpaces] at hd
  | cons c rest ih =>
    simp only [collapseSpaces] at hd
    split at hd
    · exact List.mem_cons_of_mem _ (ih hd)
    · simp only [List.mem_cons] at hd ⊢
      rcases hd with h | h
      · exact Or.inl h
      · exact Or.inr (ih h)

theorem collapse_head (l : Str) : (collapseSpaces l).head? = l.head? := by
  induction l with
  | nil => rfl
  | cons c rest ih =>
    simp only [collapseSpaces]
    split
    · rename_i h
      rw [ih, h.2, ← h.1]
      rfl
    · rfl

theorem hasDouble_collapse (l : Str) : hasDoubleSpace (collapseSpaces l) = false := by
  induction l with
  | nil => rfl
  | cons c rest ih =>
    simp only [collapseSpaces]
    split
    · exact ih
    · rename_i h
      simp only [hasDoubleSpace, Bool.or_eq_false_iff, ih, and_true,
        decide_eq_false_iff_not]
      rw [collapse_head]
      exact h

theorem collapse_of_noDouble (l : Str) (h : hasDoubleSpace l = false) :
    collapseSpaces l = l := by
  induction l with
  | nil => rfl
  | cons c rest ih =>
    simp only [hasDoubleSpace, Bool.or_eq_false_iff, decide_eq_false_iff_not] at h
    simp only [collapseSpaces, if_neg h.1]
    rw [ih h.2]

theorem collapse_idem (l : Str) : collapseSpaces (collapseSpaces l) = collapseSpaces l :=
  collapse_of_noDouble _ (hasDouble_collapse l)

theorem norm_def (s : Str) :
    norm s = collapseSpaces (((((pyStrip s).map pyLower).flatMap nfdChar).filter
      (fun d => !(isMn d))).map (fun d => if d = '\u00A0' then ' ' else d)) := rfl

theorem collapse_norm (s : Str) : collapseSpaces (norm s) = norm s := by
  rw [norm_def]
  exact collapse_idem _

theorem map_id_of_mem {α : Type} {f : α → α} {l : List α} (h : ∀ a ∈ l, f a = a) :
    l.map f = l := by
  induction l with
  | nil => rfl
  | cons a l ih =>
    simp only [List.map_cons]
    rw [h a (by simp), ih (fun x hx => h x (List.mem_cons_of_mem _ hx))]

theorem flatMap_singleton_of_mem {α : Type} {f : α → List α} {l : List α}
    (h : ∀ a ∈ l, f a = [a]) : l.flatMap f = l := by
  induction l with
  | nil => rfl
  | cons a l ih =>
    simp only [List.flatMap_cons]
    rw [h a (by simp), ih (fun x hx => h x (List.mem_cons_of_mem _ hx))]
    rfl

theorem mem_norm_stable (s : Str) (d : Char) (hd : d ∈ norm s) :
    pyLower d = d ∧ nfdChar d = [d] ∧ isMn d = false ∧ d ≠ '\u00A0' := by
  rw [norm_def] at hd
  have hv := collapse_subset _ _ hd
  simp only [List.mem_map] at hv
  obtain ⟨u0, hu0, hrepl⟩ := hv
  simp only [List.mem_filter] at hu0
  obtain ⟨hu0m, hu0mn⟩ := hu0
  simp only [List.mem_flatMap, List.mem_map] at hu0m
  obtain ⟨c0, ⟨c1, _, rfl⟩, hu0n⟩ := hu0m
  have hmn : isMn u0 = false := by simp at hu0mn; exact hu0mn
  by_cases hnb : u0 = '\u00A0'
  · rw [if_pos hnb] at hrepl
    subst hrepl
    exact ⟨by decide, by decide, by decide, by decide⟩
  · rw [if_neg hnb] at hrepl
    subst hrepl
    exact ⟨(pyLower_stable_out c1 u0 hu0n hmn hnb).1,
      (pyLower_stable_out c1 u0 hu0n hmn hnb).2, hmn, hnb⟩

theorem norm_stages_fixed (x : Str) :
    ((norm x).map pyLower).flatMap nfdChar = norm x ∧
    ((norm x).filter (fun d => !(isMn d))).map (fun d => if d = '\u00A0' then ' ' else d) =
      norm x := by
  have hst := fun d hd => mem_norm_stable x d hd
  constructor
  · rw [map_id_of_mem (fun d hd => (hst d hd).1)]
    exact flatMap_singleton_of_mem (fun d hd => (hst d hd).2.1)
  · rw [List.filter_eq_self.mpr (fun d hd => by simp [(hst d hd).2.2.1])]
    exact map_id_of_mem (fun d hd => if_neg (hst d hd).2.2.2)

/-- Claim C6 (amended): `norm` is idempotent on every input whose normalized
form is stable under stripping, that is, whenever removing combining marks
or replacing no-break spaces did not expose new leading or trailing
whitespace; on such inputs `norm (norm x) = norm x`. -/
theorem norm_idem_on_stripped (x : Str) (h : pyStrip (norm x) = norm x) :
    norm (norm x) = norm x := by
  rw [norm_def (norm x), h, (norm_stages_fixed x).1, (norm_stages_fixed x).2]
  exact collapse_norm x

/-- Witness for C6 (amended): a concrete accented, mixed-case, multi-space
input on which the hypothesis holds and `norm` is idempotent. -/
theorem norm_idem_on_stripped_witness :
    pyStrip (norm ("  Déjà  Vu ".toList)) = norm ("  Déjà  Vu ".toList) ∧
    norm (norm ("  Déjà  Vu ".toList)) = norm ("  Déjà  Vu ".toList) :=
  ⟨by decide, norm_idem_on_stripped _ (by decide)⟩

/-- Counterexample for C6 as stated: on the input consisting of a combining
acute accent, a space and the letter a, `norm` keeps the leading space (the
combining mark shielded it from the strip step and is removed later), so a
second application strips further and differs. -/
theorem norm_not_idempotent_cex :
    norm (norm ['\u0301', ' ', 'a']) ≠ norm ['\u0301', ' ', 'a'] := by decide

/-! Lemmas about the query surface. -/

theorem lookup_single_def (db : DB) (a b : Str) :
    lookup db a b false =
      match (db.entries.filter (entryMatches (norm a) (norm b))).head? with
      | some e => .single true e.libelle
      | none => .single false [] := rfl

theorem lookup_all_def (db : DB) (a b : Str) :
    lookup db a b true =
      .multi
        (decide (0 < (dedupGo []
          ((db.entries.filter (entryMatches (norm a) (norm b))).map Entry.libelle)).length))
        (dedupGo []
          ((db.entries.filter (entryMatches (norm a) (norm b))).map Entry.libelle)) := rfl

theorem dedupGo_sublist (l : List Str) : ∀ seen, (dedupGo seen l).Sublist l := by
  induction l with
  | nil => intro seen; simp [dedupGo]
  | cons x xs ih =>
    intro seen
    simp only [dedupGo]
    split
    · exact (ih seen).cons x
    · exact (ih (norm x :: seen)).cons₂ x

theorem dedupGo_not_seen (l : List Str) :
    ∀ seen, ∀ y ∈ dedupGo seen l, norm y ∉ seen := by
  induction l with
  | nil => intro seen y hy; simp [dedupGo] at hy
  | cons x xs ih =>
    intro seen y hy
    simp only [dedupGo] at hy
    split at hy
    · exact ih seen y hy
    · rename_i hnot
      simp only [List.mem_cons] at hy
      rcases hy with rfl | hy
      · exact hnot
      · have := ih (norm x :: seen) y hy
        intro hc
        exact this (List.mem_cons_of_mem _ hc)

theorem dedupGo_nodup (l : List Str) : ∀ seen, ((dedupGo seen l).map norm).Nodup := by
  induction l with
  | nil => intro seen; simp [dedupGo]
  | cons x xs ih =>
    intro seen
    simp only [dedupGo]
    split
    · exact ih seen
    · simp only [List.map_cons, List.nodup_cons]
      refine ⟨?_, ih (norm x :: seen)⟩
      intro hc
      simp only [List.mem_map] at hc
      obtain ⟨y, hy, hny⟩ := hc
      exact dedupGo_not_seen xs (norm x :: seen) y hy (by simp [hny])

theorem dedupGo_covers (l : List Str) :
    ∀ seen, ∀ x ∈ l, norm x ∈ seen ∨ norm x ∈ (dedupGo seen l).map norm := by
  induction l with
  | nil => intro seen x hx; simp at hx
  | cons z xs ih =>
    intro seen x hx
    simp only [List.mem_cons] at hx
    simp only [dedupGo]
    split
    · rename_i hz
      rcases hx with rfl | hx
      · exact Or.inl hz
      · exact ih seen x hx
    · rcases hx with rfl | hx
      · exact Or.inr (by simp)
      · rcases ih (norm z :: seen) x hx with h | h
        · simp only [List.mem_cons] at h
          rcases h with h | h
          · exact Or.inr (by simp [h])
          · exact Or.inl h
        · exact Or.inr (by simp [h])

theorem dedupGo_first (l : List Str) :
    ∀ seen, ∀ y ∈ dedupGo seen l, l.find? (fun z => norm z == norm y) = some y := by
  induction l with
  | nil => intro seen y hy; simp [dedupGo] at hy
  | cons x xs ih =>
    intro seen y hy
    simp only [dedupGo] at hy
    split at hy
    · rename_i hx
      have hyn := dedupGo_not_seen xs seen y hy
      have hne : (norm x == norm y) = false := by
        simp only [beq_eq_false_iff_ne, ne_eq]
        intro hc
        exact hyn (hc ▸ hx)
      rw [List.find?_cons, hne]
      exact ih seen y hy
    · simp only [List.mem_cons] at hy
      rcases hy with rfl | hy
      · rw [List.find?_cons, beq_self_eq_true]
      · have hyn := dedupGo_not_seen xs (norm x :: seen) y hy
        have hne : (norm x == norm y) = false := by
          simp only [beq_eq_false_iff_ne, ne_eq]
          intro hc
          exact hyn (by simp [hc])
        rw [List.find?_cons, hne]
        exact ih (norm x :: seen) y hy

theorem dedupGo_nil_iff (l : List Str) :
    ∀ seen, dedupGo seen l = [] ↔ ∀ x ∈ l, norm x ∈ seen := by
  induction l with
  | nil => intro seen; simp [dedupGo]
  | cons x xs ih =>
    intro seen
    simp only [dedupGo]
    split
    · rename_i hx
      rw [ih seen]
      constructor
      · intro h z hz
        rcases List.mem_cons.mp hz with rfl | hz
        · exact hx
        · exact h z hz
      · intro h z hz
        exact h z (List.mem_cons_of_mem _ hz)
    · rename_i hx
      simp only [List.cons_ne_nil, false_iff, not_forall]
      exact ⟨x, by simp, hx⟩

/-- Claim C8: single-mode lookup returns not-found with an empty label
exactly when no stored entry matches the normalized compound key, and
otherwise returns the label of the first matching entry in storage (source
row) order. -/
theorem lookup_single_spec (db : DB) (a b : Str) :
    (lookup db a b false = .single false [] ↔
      ∀ e ∈ db.entries, entryMatches (norm a) (norm b) e = false) ∧
    (∀ pre e post, db.entries = pre ++ e :: post →
      entryMatches (norm a) (norm b) e = true →
      (∀ p ∈ pre, entryMatches (norm a) (norm b) p = false) →
      lookup db a b false = .single true e.libelle) := by
  constructor
  · rw [lookup_single_def]
    cases h : (db.entries.filter (entryMatches (norm a) (norm b))).head? with
    | none =>
      have hnil : db.entries.filter (entryMatches (norm a) (norm b)) = [] := by
        cases hf : db.entries.filter (entryMatches (norm a) (norm b)) with
        | nil => rfl
        | cons z zs => rw [hf] at h; simp at h
      simp only [hnil]
      constructor
      · intro _ e he
        have := List.filter_eq_nil_iff.mp hnil e he
        simpa using this
      · intro _; trivial
    | some e =>
      have hmem : e ∈ db.entries.filter (entryMatches (norm a) (norm b)) :=
        List.mem_of_mem_head? (by rw [h]; simp)
      have hsplit := List.mem_filter.mp hmem
      constructor
      · intro hc; simp at hc
      · intro hall
        have := hall e hsplit.1
        rw [hsplit.2] at this
        simp at this
  · intro pre e post hs hmatch hpre
    rw [lookup_single_def, hs, List.filter_append,
      List.filter_eq_nil_iff.mpr (fun p hp => by simp [hpre p hp]),
      List.filter_cons_of_pos hmatch]
    rfl

/-- Witness for C8 at a concrete database with a non-matching entry first
and two matching entries: the first matching label is returned. -/
theorem lookup_single_spec_witness :
    lookup dbDup ("1234".toList) ("001A".toList) false =
      .single true ("Label One".toList) :=
  (lookup_single_spec dbDup ("1234".toList) ("001A".toList)).2
    [⟨"7777".toList, "001a".toList, "Other".toList⟩]
    ⟨"1234".toList, "001a".toList, "Label One".toList⟩
    [⟨"1234".toList, "001a".toList, "label  one".toList⟩]
    (by decide) (by decide) (by decide)

/-- Claim C7: the all-mode lookup result is a sublist of the matching labels
in storage order, has pairwise distinct normalized labels, covers every
matching label up to normalization, keeps for each normalized class the
first-seen raw label, and reports found exactly when the list (equivalently,
the match set) is non-empty. -/
theorem lookup_all_spec (db : DB) (a b : Str) (found : Bool) (out : List Str)
    (h : lookup db a b true = .multi found out) :
    out.Sublist ((db.entries.filter (entryMatches (norm a) (norm b))).map Entry.libelle) ∧
    (out.map norm).Nodup ∧
    (∀ x ∈ (db.entries.filter (entryMatches (norm a) (norm b))).map Entry.libelle,
      norm x ∈ out.map norm) ∧
    (∀ y ∈ out,
      ((db.entries.filter (entryMatches (norm a) (norm b))).map Entry.libelle).find?
        (fun z => norm z == norm y) = some y) ∧
    (found = true ↔ out ≠ []) ∧
    (out = [] ↔ (db.entries.filter (entryMatches (norm a) (norm b))).map Entry.libelle = []) := by
  rw [lookup_all_def] at h
  injection h with h1 h2
  subst h1
  subst h2
  refine ⟨dedupGo_sublist _ [], dedupGo_nodup _ [], ?_, dedupGo_first _ [], ?_, ?_⟩
  · intro x hx
    rcases dedupGo_covers _ [] x hx with hc | hc
    · simp at hc
    · exact hc
  · simp [List.length_pos]
  · rw [dedupGo_nil_iff]
    constructor
    · intro hc
      cases hms : (db.entries.filter (entryMatches (norm a) (norm b))).map Entry.libelle with
      | nil => rfl
      | cons z zs =>
        have := hc z (by rw [hms]; simp)
        simp at this
    · intro hc x hx
      rw [hc] at hx
      simp at hx

/-- Witness for C7 at a concrete database with duplicate keys and labels
differing only in case and spacing: the first-seen raw label is the value
found for its normalized class. -/
theorem lookup_all_spec_witness :
    ((dbDup.entries.filter (entryMatches (norm ("1234".toList)) (norm ("001A".toList)))).map
        Entry.libelle).find? (fun z => norm z == norm ("Label One".toList)) =
      some ("Label One".toList) :=
  (lookup_all_spec dbDup ("1234".toList) ("001A".toList) true
      [("Label One".toList)] (by decide)).2.2.2.1 ("Label One".toList) (by decide)

/-- Claim C10 (amended): lookup gives the same answer on raw inputs as on
pre-normalized inputs whenever `norm` is idempotent on both inputs; the
hypothesis can only fail on inputs where normalization exposes new edge
whitespace (see C6). -/
theorem lookup_norm_invariant_restricted (db : DB) (a b : Str) (allFlag : Bool)
    (ha : norm (norm a) = norm a) (hb : norm (norm b) = norm b) :
    lookup db (norm a) (norm b) allFlag = lookup db a b allFlag := by
  cases allFlag
  · rw [lookup_single_def, lookup_single_def, ha, hb]
  · rw [lookup_all_def, lookup_all_def, ha, hb]

/-- Witness for C10 (amended) at concrete inputs with case, accents and
extra spaces. -/
theorem lookup_norm_invariant_restricted_witness :
    norm (norm ("  LIBELLÉ  x ".toList)) = norm ("  LIBELLÉ  x ".toList) ∧
    norm (norm ("001A".toList)) = norm ("001A".toList) ∧
    lookup dbDup (norm ("  LIBELLÉ  x ".toList)) (norm ("001A".toList)) false =
      lookup dbDup ("  LIBELLÉ  x ".toList) ("001A".toList) false :=
  ⟨by decide, by decide,
    lookup_norm_invariant_restricted dbDup ("  LIBELLÉ  x ".toList) ("001A".toList) false
      (by decide) (by decide)⟩

/-- Counterexample for C10 as stated: a key whose text starts with a
combining mark followed by a space normalizes to a key with a leading space,
which a second normalization would strip, so querying with the raw input
and with its normalized form give different results. -/
theorem lookup_not_norm_invariant_cex :
    lookup dbEdge (['́', ' ', 'x']) (['k']) false ≠
      lookup dbEdge (norm ['́', ' ', 'x']) (norm ['k']) false := by decide

/-! Lemmas about the batched insert loop and the rebuild. -/

theorem insertLoop_eq_nil_iff (bs : Nat) :
    ∀ (l committed batch : List Entry),
      insertLoop bs committed batch l = [] ↔ l = [] ∧ batch = [] := by
  intro l
  induction l with
  | nil =>
    intro c b
    simp only [insertLoop]
    split
    · rename_i hb; simp [hb]
    · rename_i hb; simp [hb]
  | cons e rest ih =>
    intro c b
    simp only [insertLoop]
    split
    · simp
    · rw [ih c (b ++ [e])]
      simp

theorem insertLoop_getLast? (bs : Nat) :
    ∀ (l committed batch : List Entry), insertLoop bs committed batch l ≠ [] →
      (insertLoop bs committed batch l).getLast? = some (committed ++ batch ++ l) := by
  intro l
  induction l with
  | nil =>
    intro c b hne
    simp only [insertLoop] at hne ⊢
    split at hne
    · exact absurd rfl hne
    · split
      · rename_i hb hb2; exact absurd hb2 hb
      · simp
  | cons e rest ih =>
    intro c b hne
    simp only [insertLoop]
    split
    · by_cases hrec : insertLoop bs (c ++ (b ++ [e])) [] rest = []
      · have hr := ((insertLoop_eq_nil_iff bs rest (c ++ (b ++ [e])) []).mp hrec).1
        rw [hrec, hr]
        simp
      · cases hc : insertLoop bs (c ++ (b ++ [e])) [] rest with
        | nil => exact absurd hc hrec
        | cons z zs =>
          rw [List.getLast?_cons_cons, ← hc, ih (c ++ (b ++ [e])) [] hrec]
          simp
    · rename_i hfull
      have hne2 : insertLoop bs c (b ++ [e]) rest ≠ [] := by
        simp only [insertLoop] at hne
        rw [if_neg hfull] at hne
        exact hne
      rw [ih c (b ++ [e]) hne2]
      simp

theorem insertLoop_getLastD_full (bs : Nat) (l : List Entry) :
    (insertLoop bs [] [] l).getLastD [] = l := by
  by_cases hnil : insertLoop bs [] [] l = []
  · rw [hnil]
    have := ((insertLoop_eq_nil_iff bs l [] []).mp hnil).1
    simp [this]
  · rw [List.getLastD_eq_getLast?, insertLoop_getLast? bs l [] [] hnil]
    simp

theorem insertLoop_mem_front (bs : Nat) :
    ∀ (l committed batch : List Entry) (st : List Entry),
      st ∈ insertLoop bs committed batch l →
      ∃ rest2, st ++ rest2 = committed ++ batch ++ l := by
  intro l
  induction l with
  | nil =>
    intro c b st hst
    simp only [insertLoop] at hst
    split at hst
    · simp at hst
    · simp only [List.mem_singleton] at hst
      subst hst
      exact ⟨[], by simp⟩
  | cons e rest ih =>
    intro c b st hst
    simp only [insertLoop] at hst
    split at hst
    · simp only [List.mem_cons] at hst
      rcases hst with rfl | hst
      · exact ⟨rest, by simp⟩
      · obtain ⟨r2, hr2⟩ := ih (c ++ (b ++ [e])) [] st hst
        refine ⟨r2, ?_⟩
        rw [hr2]
        simp
    · obtain ⟨r2, hr2⟩ := ih c (b ++ [e]) st hst
      refine ⟨r2, ?_⟩
      rw [hr2]
      simp

theorem getLastD_map {α β : Type} (f : α → β) :
    ∀ (l : List α) (d : α), (l.map f).getLastD (f d) = f (l.getLastD d) := by
  intro l
  induction l with
  | nil => intro d; rfl
  | cons a l ih =>
    intro d
    simp only [List.map_cons, List.getLastD_cons]
    exact ih a

theorem find_header_err (ws : Sheet) (m : Nat) (e : Err)
    (h : find_header ws m = .error e) : e = .headerNotFound := by
  unfold find_header at h
  split at h
  · cases h
  · cases h; rfl

theorem rebuild_none (env : Env) (sheet : Str) (h : env.dataFile = none) :
    rebuild_cache env sheet = (.error .noFileUpload, []) := by
  simp only [rebuild_cache, h]

theorem rebuild_ok_parts (env : Env) (sheet : Str) (sts : List DB)
    (h : rebuild_cache env sheet = (.ok (), sts)) :
    ∃ f ws hr ci cc cl,
      env.dataFile = some f ∧ f.wb.lookup sheet = some ws ∧
      find_header ws 40 = .ok (hr, ci, cc, cl) ∧
      sts = ⟨[], some (get_file_sig env sheet)⟩ ::
        (insertLoop 3000 [] [] (extract_entries ws hr ci cc cl)).map
          (fun p => ⟨p, some (get_file_sig env sheet)⟩) := by
  unfold rebuild_cache at h
  split at h
  · simp at h
  · rename_i f henv
    split at h
    · simp at h
    · rename_i ws hws
      split at h
      · simp at h
      · rename_i hr ci cc cl hfh
        simp only [Prod.mk.injEq] at h
        exact ⟨f, ws, hr, ci, cc, cl, henv, hws, hfh, h.2.symm⟩

theorem rebuild_err_parts (env : Env) (sheet : Str) (e : Err) (sts : List DB)
    (hsome : env.dataFile.isSome) (h : rebuild_cache env sheet = (.error e, sts)) :
    sts = [⟨[], some (get_file_sig env sheet)⟩] ∧
      (e = .sheetNotFound sheet ∨ e = .headerNotFound) := by
  unfold rebuild_cache at h
  split at h
  · rename_i henv
    rw [henv] at hsome
    simp at hsome
  · rename_i f henv
    split at h
    · simp only [Prod.mk.injEq] at h
      refine ⟨h.2.symm, Or.inl ?_⟩
      have := h.1
      injection this with he
      exact he.symm
    · rename_i ws hws
      split at h
      · rename_i e2 hfh
        simp only [Prod.mk.injEq] at h
        refine ⟨h.2.symm, Or.inr ?_⟩
        have := h.1
        injection this with he
        rw [← he]
        exact find_header_err ws 40 e2 hfh
      · simp at h

theorem ensure_none (env : Env) (sheet : Str) (db : DB) (h : env.dataFile = none) :
    ensure_cache_uptodate env sheet db = (.error .noFileQuery, [], false) := by
  simp only [ensure_cache_uptodate, h]

theorem ensure_some (env : Env) (sheet : Str) (db : DB) (f : FileInfo)
    (h : env.dataFile = some f) :
    ensure_cache_uptodate env sheet db =
      if db.meta.getD [] ≠ get_file_sig env sheet then
        ((rebuild_cache env sheet).1, (rebuild_cache env sheet).2, true)
      else (.ok (), [], false) := by
  simp only [ensure_cache_uptodate, h]

theorem finalDB_states (db : DB) (sig : Str) (es : List Entry) :
    finalDB db (⟨[], some sig⟩ ::
      (insertLoop 3000 [] [] es).map (fun p => ⟨p, some sig⟩)) = ⟨es, some sig⟩ := by
  unfold finalDB
  rw [List.getLastD_cons]
  have hwmap : (⟨[], some sig⟩ : DB) = (fun p => (⟨p, some sig⟩ : DB)) [] := rfl
  rw [hwmap, getLastD_map, insertLoop_getLastD_full]

theorem rebuild_ok_final (env : Env) (sheet : Str) (db : DB) (sts : List DB)
    (h : rebuild_cache env sheet = (.ok (), sts)) :
    ∃ f ws hr ci cc cl,
      env.dataFile = some f ∧ f.wb.lookup sheet = some ws ∧
      find_header ws 40 = .ok (hr, ci, cc, cl) ∧
      finalDB db sts =
        ⟨extract_entries ws hr ci cc cl, some (get_file_sig env sheet)⟩ := by
  obtain ⟨f, ws, hr, ci, cc, cl, hf, hws, hfh, hsts⟩ := rebuild_ok_parts env sheet sts h
  refine ⟨f, ws, hr, ci, cc, cl, hf, hws, hfh, ?_⟩
  rw [hsts, finalDB_states]

/-- Claim C1 (amended): during a successful rebuild every committed state
already carries the new signature, and its entries are a front segment of
the final entries, so new-generation entries are never paired with the old
signature; the final committed state pairs the complete new entries with
the new signature; however at least one intermediate committed state exists
(the wipe commit), so the new signature is observable before the entries
are complete. -/
theorem rebuild_generation_consistency (env : Env) (sheet : Str) (db : DB) (sts : List DB)
    (h : rebuild_cache env sheet = (.ok (), sts)) :
    sts ≠ [] ∧
    (finalDB db sts).meta = some (get_file_sig env sheet) ∧
    (∀ st ∈ sts, st.meta = some (get_file_sig env sheet) ∧
      ∃ rest2, st.entries ++ rest2 = (finalDB db sts).entries) := by
  obtain ⟨f, ws, hr, ci, cc, cl, hf, hws, hfh, hsts⟩ := rebuild_ok_parts env sheet sts h
  subst hsts
  rw [finalDB_states]
  refine ⟨by simp, rfl, ?_⟩
  intro st hst
  rcases List.mem_cons.mp hst with rfl | hst
  · exact ⟨rfl, ⟨extract_entries ws hr ci cc cl, by simp⟩⟩
  · simp only [List.mem_map] at hst
    obtain ⟨p, hp, rfl⟩ := hst
    refine ⟨rfl, ?_⟩
    obtain ⟨r2, hr2⟩ := insertLoop_mem_front 3000 (extract_entries ws hr ci cc cl) [] [] p hp
    exact ⟨r2, by simpa using hr2⟩

/-- Witness for C1 (amended) at the concrete environment `envA`. -/
theorem rebuild_generation_consistency_witness :
    [(⟨[], some sigA⟩ : DB), ⟨[entryA], some sigA⟩] ≠ [] ∧
    (finalDB dbOld [⟨[], some sigA⟩, ⟨[entryA], some sigA⟩]).meta =
      some (get_file_sig envA ("2026".toList)) ∧
    (∀ st ∈ [(⟨[], some sigA⟩ : DB), ⟨[entryA], some sigA⟩],
      st.meta = some (get_file_sig envA ("2026".toList)) ∧
      ∃ rest2, st.entries ++ rest2 =
        (finalDB dbOld [⟨[], some sigA⟩, ⟨[entryA], some sigA⟩]).entries) :=
  rebuild_generation_consistency envA ("2026".toList) dbOld
    [⟨[], some sigA⟩, ⟨[entryA], some sigA⟩] (by decide)

/-- Counterexample for C1 as stated: the rebuild at `envA` over the prior
state `dbOld` commits the intermediate state with the new signature and no
entries, although the old generation had one entry and the new generation
has one entry; an observer reading between the two commits sees the new
signature paired with entries from neither generation. -/
theorem rebuild_not_atomic_cex :
    rebuild_cache envA ("2026".toList) =
      (.ok (), [⟨[], some sigA⟩, ⟨[entryA], some sigA⟩]) ∧
    dbOld.entries ≠ [] ∧ dbOld.meta ≠ some sigA ∧ ([] : List Entry) ≠ [entryA] := by
  decide

/-- Claim C2 (amended): a ConfigurationError (missing file) aborts the
rebuild before any database write, leaving the persisted state exactly as it
was; a SchemaError (missing sheet or missing header) aborts the rebuild, but
only after the old entries and the old MetaRecord were deleted and the new
signature committed: the store is left with empty entries and the new
signature, not in its prior state. -/
theorem rebuild_error_state (env : Env) (sheet : Str) (db : DB) :
    (env.dataFile = none →
      rebuild_cache env sheet = (.error .noFileUpload, []) ∧ finalDB db [] = db) ∧
    (∀ e sts, env.dataFile.isSome → rebuild_cache env sheet = (.error e, sts) →
      (e = .sheetNotFound sheet ∨ e = .headerNotFound) ∧
      sts = [⟨[], some (get_file_sig env sheet)⟩] ∧
      finalDB db sts = ⟨[], some (get_file_sig env sheet)⟩) := by
  constructor
  · intro hnone
    exact ⟨rebuild_none env sheet hnone, rfl⟩
  · intro e sts hsome h
    obtain ⟨hsts, he⟩ := rebuild_err_parts env sheet e sts hsome h
    exact ⟨he, hsts, by rw [hsts]; rfl⟩

/-- Witness for C2 (amended) at the concrete environment whose file lacks
the requested sheet. -/
theorem rebuild_error_state_witness :
    (Err.sheetNotFound ("2026".toList) = .sheetNotFound ("2026".toList) ∨
      Err.sheetNotFound ("2026".toList) = .headerNotFound) ∧
    [(⟨[], some (get_file_sig envNoSheet ("2026".toList))⟩ : DB)] =
      [⟨[], some (get_file_sig envNoSheet ("2026".toList))⟩] ∧
    finalDB dbOld [⟨[], some (get_file_sig envNoSheet ("2026".toList))⟩] =
      ⟨[], some (get_file_sig envNoSheet ("2026".toList))⟩ :=
  (rebuild_error_state envNoSheet ("2026".toList) dbOld).2
    (.sheetNotFound ("2026".toList))
    [⟨[], some (get_file_sig envNoSheet ("2026".toList))⟩]
    (by decide) (by decide)

/-- Counterexample for C2 as stated: a rebuild failing with the missing
sheet SchemaError does not leave the persisted entries and MetaRecord as
they were; it wipes them and commits the new signature. -/
theorem rebuild_error_mutates_cex :
    (rebuild_cache envNoSheet ("2026".toList)).1 =
      .error (.sheetNotFound ("2026".toList)) ∧
    finalDB dbOld (rebuild_cache envNoSheet ("2026".toList)).2 ≠ dbOld := by
  decide

/-- Claim C3 (amended): when the source file is missing, every query fails
with the same ConfigurationError, identically, until a file appears; but
when a rebuild failed with a SchemaError, the failing signature was already
committed by the wipe commit, so the next query over the unchanged source
compares equal signatures, does not rebuild, does not fail, and is served
from the emptied index. -/
theorem failed_rebuild_behavior (env : Env) (sheet : Str) (db : DB) :
    (env.dataFile = none →
      ensure_cache_uptodate env sheet db = (.error .noFileQuery, [], false)) ∧
    (∀ e sts, env.dataFile.isSome → rebuild_cache env sheet = (.error e, sts) →
      ensure_cache_uptodate env sheet (finalDB db sts) = (.ok (), [], false)) := by
  constructor
  · exact ensure_none env sheet db
  · intro e sts hsome h
    obtain ⟨f, hf⟩ := Option.isSome_iff_exists.mp hsome
    obtain ⟨hsts, _⟩ := rebuild_err_parts env sheet e sts hsome h
    rw [hsts]
    rw [ensure_some env sheet _ f hf]
    rw [if_neg]
    simp [finalDB]

/-- Witness for C3 (amended): after the failed rebuild at `envNoSheet`, the
next query on the committed state succeeds without retrying. -/
theorem failed_rebuild_behavior_witness :
    ensure_cache_uptodate envNoSheet ("2026".toList)
      (finalDB dbOld [⟨[], some (get_file_sig envNoSheet ("2026".toList))⟩]) =
      (.ok (), [], false) :=
  (failed_rebuild_behavior envNoSheet ("2026".toList) dbOld).2
    (.sheetNotFound ("2026".toList))
    [⟨[], some (get_file_sig envNoSheet ("2026".toList))⟩]
    (by decide) (by decide)

/-- Counterexample for C3 as stated: the first query at `envNoSheet` fails
with the missing-sheet SchemaError, but the next identical query over the
unchanged source does not fail at all, because the failing signature was
committed by the wipe. -/
theorem failed_rebuild_retry_cex :
    (ensure_cache_uptodate envNoSheet ("2026".toList) dbOld).1 =
      .error (.sheetNotFound ("2026".toList)) ∧
    (ensure_cache_uptodate envNoSheet ("2026".toList)
      (finalDB dbOld
        (ensure_cache_uptodate envNoSheet ("2026".toList) dbOld).2.1)).1 = .ok () := by
  decide

/-- Claim C5: `ensure_cache_uptodate` fails when no file is present;
otherwise it invokes the rebuild exactly when the stored signature (empty
when never built) differs from the current one, propagating the rebuild
outcome; and after a completed rebuild the stored signature equals the
current one, so the next query does not rebuild again. -/
theorem ensure_cache_spec (env : Env) (sheet : Str) (db : DB) :
    (env.dataFile = none →
      ensure_cache_uptodate env sheet db = (.error .noFileQuery, [], false)) ∧
    (env.dataFile.isSome →
      ((ensure_cache_uptodate env sheet db).2.2 = true ↔
        db.meta.getD [] ≠ get_file_sig env sheet)) ∧
    (env.dataFile.isSome → db.meta.getD [] ≠ get_file_sig env sheet →
      ensure_cache_uptodate env sheet db =
        ((rebuild_cache env sheet).1, (rebuild_cache env sheet).2, true)) ∧
    (∀ sts, rebuild_cache env sheet = (.ok (), sts) →
      ensure_cache_uptodate env sheet (finalDB db sts) = (.ok (), [], false)) := by
  refine ⟨ensure_none env sheet db, ?_, ?_, ?_⟩
  · intro hsome
    obtain ⟨f, hf⟩ := Option.isSome_iff_exists.mp hsome
    rw [ensure_some env sheet db f hf]
    by_cases hc : db.meta.getD [] ≠ get_file_sig env sheet
    · rw [if_pos hc]
      simpa using hc
    · rw [if_neg hc]
      simpa using hc
  · intro hsome hne
    obtain ⟨f, hf⟩ := Option.isSome_iff_exists.mp hsome
    rw [ensure_some env sheet db f hf, if_pos hne]
  · intro sts h
    obtain ⟨f, ws, hr, ci, cc, cl, hf, hws, hfh, hfinal⟩ :=
      rebuild_ok_final env sheet db sts h
    rw [ensure_some env sheet _ f hf, hfinal]
    rw [if_neg]
    simp

/-- Witness for C5: after the successful rebuild at `envA`, the next query
on the final state performs no rebuild and succeeds. -/
theorem ensure_cache_spec_witness :
    ensure_cache_uptodate envA ("2026".toList)
      (finalDB dbOld [⟨[], some sigA⟩, ⟨[entryA], some sigA⟩]) = (.ok (), [], false) :=
  (ensure_cache_spec envA ("2026".toList) dbOld).2.2.2
    [⟨[], some sigA⟩, ⟨[entryA], some sigA⟩] (by decide)

theorem extractRow_shape (ci cc cl : Nat) (row : List Cell) (e : Entry)
    (h : extractRow ci cc cl row = some e) :
    e.imprime ≠ [] ∧ e.codeedi ≠ [] ∧ e.libelle ≠ [] ∧
    (∃ a, e.imprime = norm a) ∧ (∃ b, e.codeedi = norm b) ∧
    ∃ v, e.libelle = pyStrip v := by
  unfold extractRow at h
  split at h
  · cases h
  · dsimp only at h
    split at h
    · cases h
    · rename_i hkeys
      simp only [not_or] at hkeys
      split at h
      · split at h
        · cases h
        · rename_i hlibne
          injection h with h
          subst h
          exact ⟨hkeys.1, hkeys.2, hlibne, ⟨_, rfl⟩, ⟨_, rfl⟩, ⟨_, rfl⟩⟩
      · simp at h

/-- Claim C9: every entry of every state committed by a rebuild has a
non-empty normalized key_a, a non-empty normalized key_b and a non-empty
trimmed label; rows whose key columns fall outside the populated range,
whose normalized keys are empty, or whose trimmed label is empty were
skipped by the row loop and never stored. -/
theorem rebuild_entries_wellformed (env : Env) (sheet : Str) (res : Except Err Unit)
    (sts : List DB) (h : rebuild_cache env sheet = (res, sts)) :
    ∀ st ∈ sts, ∀ e ∈ st.entries,
      e.imprime ≠ [] ∧ e.codeedi ≠ [] ∧ e.libelle ≠ [] ∧
      (∃ a, e.imprime = norm a) ∧ (∃ b, e.codeedi = norm b) ∧
      ∃ v, e.libelle = pyStrip v := by
  intro st hst e he
  cases res with
  | error err =>
    by_cases hsome : env.dataFile.isSome
    · obtain ⟨hsts, _⟩ := rebuild_err_parts env sheet err sts hsome h
      rw [hsts] at hst
      simp only [List.mem_singleton] at hst
      subst hst
      simp at he
    · rw [Option.not_isSome_iff_eq_none] at hsome
      rw [rebuild_none env sheet hsome] at h
      injection h with h1 h2
      rw [← h2] at hst
      simp at hst
  | ok u =>
    obtain ⟨⟩ := u
    obtain ⟨f, ws, hr, ci, cc, cl, hf, hws, hfh, hsts⟩ := rebuild_ok_parts env sheet sts h
    subst hsts
    have hees : e ∈ extract_entries ws hr ci cc cl := by
      rcases List.mem_cons.mp hst with rfl | hst2
      · simp at he
      · simp only [List.mem_map] at hst2
        obtain ⟨p, hp, rfl⟩ := hst2
        obtain ⟨r2, hr2⟩ := insertLoop_mem_front 3000 _ [] [] p hp
        simp only [List.nil_append] at hr2
        rw [← hr2]
        exact List.mem_append.mpr (Or.inl he)
    unfold extract_entries at hees
    obtain ⟨row, _, hex⟩ := List.mem_filterMap.mp hees
    exact extractRow_shape ci cc cl row e hex

/-- Witness for C9: the entry stored by the rebuild at `envA` has non-empty
normalized keys and a non-empty trimmed label. -/
theorem rebuild_entries_wellformed_witness :
    entryA.imprime ≠ [] ∧ entryA.codeedi ≠ [] ∧ entryA.libelle ≠ [] ∧
    (∃ a, entryA.imprime = norm a) ∧ (∃ b, entryA.codeedi = norm b) ∧
    ∃ v, entryA.libelle = pyStrip v :=
  rebuild_entries_wellformed envA ("2026".toList) (.ok ())
    [⟨[], some sigA⟩, ⟨[entryA], some sigA⟩] (by decide)
    ⟨[entryA], some sigA⟩ (by decide) entryA (by decide)

/-! Bridge lemmas between the dictionary-based header scan of the source and
the direct first-occurrence search of the specification. -/

theorem lookup_append_single (hm : List (Str × Nat)) (s : Str) (i : Nat) (t : Str) :
    (hm ++ [(s, i)]).lookup t =
      match hm.lookup t with
      | some v => some v
      | none => if t = s then some i else none := by
  induction hm with
  | nil =>
    simp only [List.nil_append, List.lookup_cons, List.lookup_nil]
    by_cases hts : t = s
    · simp [hts]
    · simp [beq_eq_false_iff_ne.mpr hts, hts]
  | cons kv hm ih =>
    obtain ⟨k, v⟩ := kv
    simp only [List.cons_append, List.lookup_cons]
    cases h : t == k
    · simp only []
      exact ih
    · rfl

theorem buildHeaderMapAux_lookup (t : Str) (ht : t ≠ []) :
    ∀ (cells : List Cell) (idx : Nat) (hm : List (Str × Nat)),
      (buildHeaderMapAux idx hm cells).lookup t =
        match hm.lookup t with
        | some v => some v
        | none => colOfTextFrom idx t cells := by
  intro cells
  induction cells with
  | nil =>
    intro idx hm
    simp only [buildHeaderMapAux, colOfTextFrom]
    cases hm.lookup t <;> rfl
  | cons c rest ih =>
    intro idx hm
    simp only [buildHeaderMapAux]
    split
    · rename_i hkeep
      rw [ih (idx + 1) (hm ++ [(normV c, idx)]), lookup_append_single]
      cases hl : hm.lookup t with
      | some v => rfl
      | none =>
        simp only [colOfTextFrom]
        by_cases hts : t = normV c
        · simp [hts]
        · rw [if_neg hts, if_neg (fun hc => hts hc.symm)]
    · rename_i hskip
      rw [ih (idx + 1) hm]
      cases hl : hm.lookup t with
      | some v => rfl
      | none =>
        simp only [colOfTextFrom]
        rw [if_neg]
        intro hc
        rcases Decidable.not_and_iff_or_not.mp hskip with hs | hs
        · simp only [ne_eq, Decidable.not_not] at hs
          rw [hs] at hc
          exact ht hc.symm
        · rw [hc] at hs
          exact hs hl

theorem pick_eq_resolveField (row : List Cell) (keys : List Str)
    (hk : ∀ k ∈ keys, norm k ≠ []) :
    pick (buildHeaderMap row) keys = resolveField row keys := by
  unfold pick resolveField
  induction keys with
  | nil => rfl
  | cons k ks ih =>
    simp only [List.findSome?_cons]
    rw [buildHeaderMap, buildHeaderMapAux_lookup (norm k) (hk k (by simp)) row 1 []]
    simp only [List.lookup_nil]
    cases hres : colOfTextFrom 1 (norm k) row with
    | some v => rfl
    | none => exact ih (fun k2 hk2 => hk k2 (List.mem_cons_of_mem _ hk2))

theorem headerCols_eq_resolveRow (row : List Cell) : headerCols row = resolveRow row := by
  unfold headerCols resolveRow
  dsimp only
  rw [pick_eq_resolveField row aliasesImprime (by decide),
    pick_eq_resolveField row aliasesCodeEdi (by decide),
    pick_eq_resolveField row aliasesLibelle (by decide)]

theorem findSome_scan (rows : Sheet) :
    ∀ (n r : Nat), 1 ≤ r → r - 1 + n ≤ rows.length →
      (List.range' r n).findSome? (fun i =>
          (headerCols (rows.getD (i - 1) [])).map (fun t => (i, t.1, t.2.1, t.2.2))) =
        locateHeaderRows r n (rows.drop (r - 1)) := by
  intro n
  induction n with
  | zero =>
    intro r h1 h2
    cases rows.drop (r - 1) <;> rfl
  | succ n ih =>
    intro r h1 h2
    have hlt : r - 1 < rows.length := by omega
    rw [List.range'_succ]
    simp only [List.findSome?_cons]
    rw [List.drop_eq_getElem_cons hlt]
    have hstep : r - 1 + 1 = r := by omega
    rw [hstep]
    have hgd : rows.getD (r - 1) [] = rows[r - 1] := List.getD_eq_getElem rows [] hlt
    rw [hgd, headerCols_eq_resolveRow]
    simp only [locateHeaderRows]
    cases hres : resolveRow (rows[r - 1]) with
    | some q =>
      obtain ⟨a, b, c⟩ := q
      rfl
    | none =>
      simp only [Option.map_none']
      have hih := ih (r + 1) (by omega) (by omega)
      have hs2 : r + 1 - 1 = r := by omega
      rw [hs2] at hih
      exact hih

/-- Claim C4: `find_header` agrees everywhere with the specification-side
search: scan rows 1 .. min maxScan rowCount in order, in each row resolve
each required field to the lowest column whose normalized cell text equals
a normalized alias (aliases probed in order; first occurrence wins on
duplicate cell text), return the first (lowest-index) qualifying row with
its three column indices, and fail with the missing-header SchemaError when
no row in the window qualifies. -/
theorem find_header_spec_correct (rows : Sheet) (maxScan : Nat) :
    find_header rows maxScan =
      match locateHeaderSpec rows maxScan with
      | some q => .ok q
      | none => .error .headerNotFound := by
  unfold find_header locateHeaderSpec
  have h := findSome_scan rows (min maxScan rows.length) 1 (le_refl 1)
    (by simp [Nat.min_le_right])
  simp only [Nat.sub_self, List.drop_zero] at h
  rw [h]
